import Mathlib

/-!
Verification of the zchat command-safety core: the danger classifier
(`IsDangerous`), the two confirmation prompts (`ShowDangerWarning`,
`ConfirmExecution`), the guarded executor (`SafeExecutor.Execute`) and the
portion of `main` that wires them together.  Go strings are modelled as
lists of Unicode code points (`GoStr`); the shell subprocess is modelled as
an oracle function passed to the executor; standard input is modelled as
the list of lines still available to be read.
-/

/-- A Go string, modelled as its list of Unicode code points. -/
abbrev GoStr := List Nat

/-- Code points of a Lean string literal; used to write concrete `GoStr` values. -/
def gostr (s : String) : GoStr := s.data.map Char.toNat

/-- One code point of `strings.ToLower` (ASCII case fold, which the spec
declares sufficient). -/
def toLowerCp (n : Nat) : Nat := if 65 ≤ n ∧ n ≤ 90 then n + 32 else n

/-- `strings.ToLower` applied to a whole string. -/
def toLowerStr (s : GoStr) : GoStr := s.map toLowerCp

/-- `unicode.IsSpace` on the Latin-1 range: tab, newline, vertical tab, form
feed, carriage return, space, next line, no-break space. -/
def isSpaceCp (n : Nat) : Bool :=
  n == 9 || n == 10 || n == 11 || n == 12 || n == 13 || n == 32 || n == 133 || n == 160

/-- `strings.TrimSpace`: drop white space from both ends of the string. -/
def trimSpace (s : GoStr) : GoStr :=
  ((s.dropWhile isSpaceCp).reverse.dropWhile isSpaceCp).reverse

/-- Whether the first list is a prefix of the second (Boolean helper for
substring containment). -/
def isPrefixCp : GoStr → GoStr → Bool
  | [], _ => true
  | _ :: _, [] => false
  | a :: as, b :: bs => a == b && isPrefixCp as bs

/-- `strings.Contains s sub`: `sub` occurs contiguously inside `s`. -/
def goContains : GoStr → GoStr → Bool
  | [], sub => sub.isEmpty
  | a :: rest, sub => isPrefixCp sub (a :: rest) || goContains rest sub

/-- The specification-level notion: `sub` is a contiguous substring of `s`. -/
def SubstringOf (sub s : GoStr) : Prop := ∃ pre post, pre ++ sub ++ post = s

/-- The fixed text prepended to the matched pattern in the classifier reason. -/
def dangerReasonText : GoStr := gostr "Command contains dangerous pattern: "

/-- Loop of `executor.IsDangerous`: try each pattern in order against the
already lower-cased command; on the first match report the pattern in its
original case. -/
def isDangerousAux (commandLower : GoStr) : List GoStr → Bool × GoStr
  | [] => (false, [])
  | p :: ps =>
    if goContains commandLower (toLowerStr p) then
      (true, dangerReasonText ++ p)
    else
      isDangerousAux commandLower ps

/-- `executor.IsDangerous`: lower-case the command, then scan the pattern
list in order, lower-casing each pattern and testing substring containment;
return the verdict together with the reason string. -/
def IsDangerous (command : GoStr) (patterns : List GoStr) : Bool × GoStr :=
  isDangerousAux (toLowerStr command) patterns

/-- Result of one confirmation prompt: `ok b` models the Go return `(b, nil)`;
`err` models a read error (the Go function then returns `false` together
with the non-nil error). -/
inductive ConfirmResult where
  | ok (b : Bool)
  | err
deriving DecidableEq

/-- `ui.Display.ConfirmExecution`: read one line (`none` models a read
error), lower-case it, trim surrounding white space, and accept the empty
string, `y`, or `yes`. -/
def ConfirmExecution (input : Option GoStr) : ConfirmResult :=
  match input with
  | none => .err
  | some line =>
    let t := trimSpace (toLowerStr line)
    .ok (t == ([] : GoStr) || t == gostr "y" || t == gostr "yes")

/-- `ui.Display.ShowDangerWarning`: read one line (`none` models a read
error), lower-case it, trim surrounding white space, and accept exactly the
full word `yes`. -/
def ShowDangerWarning (input : Option GoStr) : ConfirmResult :=
  match input with
  | none => .err
  | some line => .ok (trimSpace (toLowerStr line) == gostr "yes")

/-- `executor.SafeExecutor`: the pattern list and shell configured at
construction time. -/
structure SafeExecutor where
  dangerousPatterns : List GoStr
  shell : GoStr
deriving DecidableEq

/-- Observable outcome of `SafeExecutor.Execute`: the returned output
string, the returned error (`none` models a nil error), and whether a shell
subprocess was started. -/
structure ExecOutcome where
  output : GoStr
  err : Option GoStr
  subprocessStarted : Bool
deriving DecidableEq

/-- `executor.SafeExecutor.Execute`: re-check the command against the
executor's own pattern list and refuse with a distinct error if it is
dangerous; otherwise start the shell subprocess.  `run` is the oracle
modelling `exec.CommandContext shell -c command`: it yields the combined
output and an optional execution error, which `Execute` wraps. -/
def SafeExecutor.Execute (e : SafeExecutor) (run : GoStr → GoStr × Option GoStr)
    (command : GoStr) : ExecOutcome :=
  let d := IsDangerous command e.dangerousPatterns
  if d.1 then
    { output := [],
      err := some (gostr "refused to execute dangerous command: " ++ d.2),
      subprocessStarted := false }
  else
    let r := run command
    { output := r.1,
      err := r.2.map (fun m => gostr "command execution failed: " ++ m),
      subprocessStarted := true }

/-- Terminal outcome of `main` after the command has been generated. -/
inductive MainResult where
  | cancelled (msg : GoStr)
  | executed (output : GoStr)
  | failed (output : GoStr) (errMsg : GoStr)
deriving DecidableEq

/-- Process exit status attached to each outcome of `main`. -/
def exitCode : MainResult → Nat
  | .cancelled _ => 0
  | .executed _ => 0
  | .failed _ _ => 1

/-- A run of the tail of `main`, together with the two instrumentation
facts the safety claims are about: whether `SafeExecutor.Execute` was ever
invoked, and whether a shell subprocess was started. -/
structure RunTrace where
  result : MainResult
  executeInvoked : Bool
  subprocessStarted : Bool
deriving DecidableEq

/-- The neutral cancellation message printed by `main` before `os.Exit(0)`. -/
def cancelMsg : GoStr := gostr "Command execution cancelled."

/-- Trace of any run of `main` that cancels before reaching the executor. -/
def cancelTrace : RunTrace :=
  { result := .cancelled cancelMsg, executeInvoked := false, subprocessStarted := false }

/-- Final phase of `main`: invoke `SafeExecutor.Execute`; on a non-nil error
show it and exit with status 1, otherwise show the output. -/
def runExecPhase (e : SafeExecutor) (run : GoStr → GoStr × Option GoStr)
    (command : GoStr) : RunTrace :=
  let r := e.Execute run command
  match r.err with
  | some m =>
    { result := .failed r.output m, executeInvoked := true,
      subprocessStarted := r.subprocessStarted }
  | none =>
    { result := .executed r.output, executeInvoked := true,
      subprocessStarted := r.subprocessStarted }

/-- Standard-confirmation step of `main`: read the next line of standard
input, and on a read error or any non-affirmative answer print the
cancellation message and exit with status 0. -/
def standardPhase (e : SafeExecutor) (run : GoStr → GoStr × Option GoStr)
    (command : GoStr) (stdin : List GoStr) : RunTrace :=
  match ConfirmExecution stdin.head? with
  | .ok true => runExecPhase e run command
  | _ => cancelTrace

/-- The tail of `main`, from the safety check onwards: classify the command
with the configured pattern list; when dangerous, run the strict prompt on
the next line of standard input and cancel unless it answers the full word
`yes`; then always run the standard prompt; finally hand the command to a
`SafeExecutor` built over the same pattern list. -/
def mainFlow (patterns : List GoStr) (shell : GoStr) (run : GoStr → GoStr × Option GoStr)
    (command : GoStr) (stdin : List GoStr) : RunTrace :=
  let e : SafeExecutor := { dangerousPatterns := patterns, shell := shell }
  if (IsDangerous command patterns).1 then
    match ShowDangerWarning stdin.head? with
    | .ok true => standardPhase e run command stdin.tail
    | _ => cancelTrace
  else
    standardPhase e run command stdin

/-- Toggle the case of one ASCII code point (specification-side
transformation used to state case invariance). -/
def toggleCp (n : Nat) : Nat :=
  if 97 ≤ n ∧ n ≤ 122 then n - 32
  else if 65 ≤ n ∧ n ≤ 90 then n + 32
  else n

/-- Toggle the case of every character of a string. -/
def toggleCase (s : GoStr) : GoStr := s.map toggleCp

example : IsDangerous (gostr "sudo RM -rf /home") [gostr "ls", gostr "rm -rf /"] =
    (true, gostr "Command contains dangerous pattern: rm -rf /") := by decide

example : IsDangerous (gostr "ls -la") [gostr "rm -rf /", gostr "dd if=", gostr "mkfs"] =
    (false, []) := by decide

example : ShowDangerWarning (some (gostr "  YES ")) = .ok true := by decide

example : ShowDangerWarning (some (gostr "y")) = .ok false := by decide

example : ConfirmExecution (some (gostr "")) = .ok true := by decide

example : ConfirmExecution (some (gostr "maybe")) = .ok false := by decide

example :
    (mainFlow [gostr "rm -rf"] (gostr "/bin/zsh") (fun c => (c, none))
      (gostr "rm -rf /home/user") [gostr "yes", gostr ""]).subprocessStarted = false := by
  decide

/-- `isPrefixCp p s` decides whether `p` is a prefix of `s`. -/
lemma isPrefixCp_iff (p s : GoStr) : isPrefixCp p s = true ↔ ∃ t, p ++ t = s := by
  induction p generalizing s with
  | nil => simp [isPrefixCp]
  | cons a as ih =>
    cases s with
    | nil => simp [isPrefixCp]
    | cons b bs =>
      simp only [isPrefixCp, Bool.and_eq_true, beq_iff_eq, ih]
      constructor
      · rintro ⟨rfl, t, rfl⟩
        exact ⟨t, rfl⟩
      · rintro ⟨t, h⟩
        rw [List.cons_append] at h
        injection h with h1 h2
        exact ⟨h1, t, h2⟩

/-- `goContains s sub` decides substring containment. -/
lemma goContains_iff (s sub : GoStr) : goContains s sub = true ↔ SubstringOf sub s := by
  induction s with
  | nil =>
    simp only [goContains, List.isEmpty_iff, SubstringOf]
    constructor
    · rintro rfl
      exact ⟨[], [], rfl⟩
    · rintro ⟨pre, post, h⟩
      have hl := congrArg List.length h
      simp only [List.length_append, List.length_nil] at hl
      have hz : sub.length = 0 := by omega
      exact List.length_eq_zero.mp hz
  | cons a rest ih =>
    simp only [goContains, Bool.or_eq_true, isPrefixCp_iff, ih, SubstringOf]
    constructor
    · rintro (⟨t, h⟩ | ⟨pre, post, rfl⟩)
      · exact ⟨[], t, by simpa using h⟩
      · exact ⟨a :: pre, post, rfl⟩
    · rintro ⟨pre, post, h⟩
      cases pre with
      | nil =>
        exact Or.inl ⟨post, by simpa using h⟩
      | cons x xs =>
        rw [List.cons_append, List.cons_append] at h
        injection h with h1 h2
        exact Or.inr ⟨xs, post, by simpa using h2⟩

/-- A suffix of a concatenation is a substring of it. -/
lemma substringOf_append_left (a b : GoStr) : SubstringOf b (a ++ b) :=
  ⟨a, [], by simp⟩

/-- A Boolean that is not `true` is `false`. -/
lemma bool_eq_false_of_ne_true {b : Bool} (h : ¬ b = true) : b = false := by
  cases b
  · rfl
  · exact absurd rfl h

/-- Unfolding of the classifier loop when the head pattern matches. -/
lemma isDangerousAux_cons_pos (cl p : GoStr) (ps : List GoStr)
    (hc : goContains cl (toLowerStr p) = true) :
    isDangerousAux cl (p :: ps) = (true, dangerReasonText ++ p) := by
  unfold isDangerousAux
  rw [if_pos hc]

/-- Unfolding of the classifier loop when the head pattern does not match. -/
lemma isDangerousAux_cons_neg (cl p : GoStr) (ps : List GoStr)
    (hc : goContains cl (toLowerStr p) = false) :
    isDangerousAux cl (p :: ps) = isDangerousAux cl ps := by
  unfold isDangerousAux
  rw [if_neg (by simp [hc] : ¬ goContains cl (toLowerStr p) = true)]
  cases ps with
  | nil => rfl
  | cons q qs => rfl

/-- The classifier loop fires exactly when some pattern, lower-cased, occurs
in the lower-cased command. -/
lemma isDangerousAux_fst_true (cl : GoStr) (ps : List GoStr) :
    (isDangerousAux cl ps).1 = true ↔ ∃ p ∈ ps, goContains cl (toLowerStr p) = true := by
  induction ps with
  | nil => simp [isDangerousAux]
  | cons p ps ih =>
    by_cases hc : goContains cl (toLowerStr p) = true
    · rw [isDangerousAux_cons_pos cl p ps hc]
      constructor
      · intro _
        exact ⟨p, List.mem_cons_self p ps, hc⟩
      · intro _
        rfl
    · have hcf := bool_eq_false_of_ne_true hc
      rw [isDangerousAux_cons_neg cl p ps hcf, ih]
      constructor
      · rintro ⟨q, hq, hcq⟩
        exact ⟨q, List.mem_cons_of_mem p hq, hcq⟩
      · rintro ⟨q, hq, hcq⟩
        rcases List.mem_cons.mp hq with rfl | hq2
        · rw [hcf] at hcq
          cases hcq
        · exact ⟨q, hq2, hcq⟩

/-- When the classifier loop fires, it reports the first matching pattern,
in the original case, after the fixed reason text. -/
lemma isDangerousAux_first (cl : GoStr) (ps : List GoStr)
    (h : (isDangerousAux cl ps).1 = true) :
    ∃ l₁ p₀ l₂, ps = l₁ ++ p₀ :: l₂
      ∧ (∀ p ∈ l₁, goContains cl (toLowerStr p) = false)
      ∧ goContains cl (toLowerStr p₀) = true
      ∧ isDangerousAux cl ps = (true, dangerReasonText ++ p₀) := by
  induction ps with
  | nil => simp [isDangerousAux] at h
  | cons p ps ih =>
    by_cases hc : goContains cl (toLowerStr p) = true
    · exact ⟨[], p, ps, rfl, by simp, hc, isDangerousAux_cons_pos cl p ps hc⟩
    · have hcf := bool_eq_false_of_ne_true hc
      rw [isDangerousAux_cons_neg cl p ps hcf] at h
      obtain ⟨l₁, p₀, l₂, hps, hnone, hp₀, heq⟩ := ih h
      subst hps
      refine ⟨p :: l₁, p₀, l₂, rfl, ?_, hp₀, ?_⟩
      · intro q hq
        rcases List.mem_cons.mp hq with rfl | hq2
        · exact hcf
        · exact hnone q hq2
      · rw [isDangerousAux_cons_neg cl p _ hcf, heq]

/-- When no pattern matches, the classifier loop returns exactly `(false, "")`. -/
lemma isDangerousAux_fst_false (cl : GoStr) (ps : List GoStr)
    (h : (isDangerousAux cl ps).1 = false) :
    isDangerousAux cl ps = (false, []) := by
  induction ps with
  | nil => rfl
  | cons p ps ih =>
    by_cases hc : goContains cl (toLowerStr p) = true
    · rw [isDangerousAux_cons_pos cl p ps hc] at h
      simp at h
    · have hcf := bool_eq_false_of_ne_true hc
      rw [isDangerousAux_cons_neg cl p ps hcf] at h ⊢
      exact ih h

/-- Membership form of the white-space test. -/
lemma isSpaceCp_eq_true_iff (m : Nat) :
    isSpaceCp m = true ↔
      (m = 9 ∨ m = 10 ∨ m = 11 ∨ m = 12 ∨ m = 13 ∨ m = 32 ∨ m = 133 ∨ m = 160) := by
  simp only [isSpaceCp, Bool.or_eq_true, beq_iff_eq]
  tauto

/-- Lower-casing a code point does not change whether it is white space. -/
lemma isSpaceCp_toLowerCp (n : Nat) : isSpaceCp (toLowerCp n) = isSpaceCp n := by
  by_cases h : 65 ≤ n ∧ n ≤ 90
  · have e1 : isSpaceCp (n + 32) = false := by
      cases hb : isSpaceCp (n + 32) with
      | false => rfl
      | true =>
        have := (isSpaceCp_eq_true_iff (n + 32)).mp hb
        omega
    have e2 : isSpaceCp n = false := by
      cases hb : isSpaceCp n with
      | false => rfl
      | true =>
        have := (isSpaceCp_eq_true_iff n).mp hb
        omega
    unfold toLowerCp
    rw [if_pos h, e1, e2]
  · unfold toLowerCp
    rw [if_neg h]

/-- Lower-casing commutes with dropping leading white space. -/
lemma dropWhile_toLower (s : GoStr) :
    (s.map toLowerCp).dropWhile isSpaceCp = (s.dropWhile isSpaceCp).map toLowerCp := by
  induction s with
  | nil => rfl
  | cons a s ih =>
    rw [List.map_cons, List.dropWhile_cons, List.dropWhile_cons, isSpaceCp_toLowerCp]
    cases h : isSpaceCp a with
    | true => simpa [h] using ih
    | false => simp [h]

/-- Mapping a function commutes with list reversal. -/
lemma map_reverse_cp (f : Nat → Nat) (l : List Nat) :
    (l.reverse).map f = (l.map f).reverse := by
  induction l with
  | nil => rfl
  | cons a l ih => simp [List.reverse_cons, ih]

/-- Lower-casing then trimming equals trimming then lower-casing: the two
normalization orders used by the spec and the code agree. -/
lemma toLowerStr_trimSpace (s : GoStr) :
    toLowerStr (trimSpace s) = trimSpace (toLowerStr s) := by
  unfold toLowerStr trimSpace
  rw [dropWhile_toLower s]
  rw [← map_reverse_cp toLowerCp (s.dropWhile isSpaceCp)]
  rw [dropWhile_toLower ((s.dropWhile isSpaceCp).reverse)]
  rw [← map_reverse_cp toLowerCp (((s.dropWhile isSpaceCp).reverse).dropWhile isSpaceCp)]

/-- Toggling the case of a code point does not change its lower-cased value. -/
lemma toLowerCp_toggleCp (n : Nat) : toLowerCp (toggleCp n) = toLowerCp n := by
  by_cases h1 : 97 ≤ n ∧ n ≤ 122
  · have e1 : toggleCp n = n - 32 := by
      unfold toggleCp
      rw [if_pos h1]
    rw [e1]
    unfold toLowerCp
    rw [if_pos (by omega : 65 ≤ n - 32 ∧ n - 32 ≤ 90), if_neg (by omega : ¬(65 ≤ n ∧ n ≤ 90))]
    omega
  · by_cases h2 : 65 ≤ n ∧ n ≤ 90
    · have e1 : toggleCp n = n + 32 := by
        unfold toggleCp
        rw [if_neg h1, if_pos h2]
      rw [e1]
      unfold toLowerCp
      rw [if_pos h2, if_neg (by omega : ¬(65 ≤ n + 32 ∧ n + 32 ≤ 90))]
    · have e1 : toggleCp n = n := by
        unfold toggleCp
        rw [if_neg h1, if_neg h2]
      rw [e1]

/-- Toggling the case of a string does not change its lower-cased value. -/
lemma toLowerStr_toggleCase (s : GoStr) : toLowerStr (toggleCase s) = toLowerStr s := by
  induction s with
  | nil => rfl
  | cons a s ih =>
    unfold toLowerStr toggleCase at *
    simp only [List.map_cons]
    rw [toLowerCp_toggleCp]
    exact congrArg (List.cons (toLowerCp a)) ih

/-- The strict prompt applied to an actual line always returns without error. -/
lemma showDangerWarning_some_ok (L : GoStr) :
    ∃ b, ShowDangerWarning (some L) = ConfirmResult.ok b :=
  ⟨_, rfl⟩

/-- The standard prompt applied to an actual line always returns without error. -/
lemma confirmExecution_some_ok (L : GoStr) :
    ∃ b, ConfirmExecution (some L) = ConfirmResult.ok b :=
  ⟨_, rfl⟩

/-- The strict prompt accepts exactly the normalized full word `yes`. -/
lemma showDangerWarning_ok_iff (L : GoStr) :
    ShowDangerWarning (some L) = ConfirmResult.ok true ↔
      toLowerStr (trimSpace L) = gostr "yes" := by
  simp [ShowDangerWarning, toLowerStr_trimSpace]

/-- The standard prompt accepts exactly the normalized empty string, `y`, or `yes`. -/
lemma confirmExecution_ok_iff (L : GoStr) :
    ConfirmExecution (some L) = ConfirmResult.ok true ↔
      (toLowerStr (trimSpace L) = [] ∨ toLowerStr (trimSpace L) = gostr "y"
        ∨ toLowerStr (trimSpace L) = gostr "yes") := by
  simp [ConfirmExecution, toLowerStr_trimSpace]
  tauto

/-- C1: `IsDangerous(C, P)` returns Dangerous exactly when some pattern in
`P`, lower-cased, is a substring of the lower-cased command; when it does,
the returned reason is the fixed text `Command contains dangerous pattern: `
followed by the first matching pattern in the order of `P`, in that
pattern's original case; otherwise it returns Safe with an empty reason. -/
theorem IsDangerous_spec (C : GoStr) (P : List GoStr) :
    ((IsDangerous C P).1 = true ↔ ∃ p ∈ P, SubstringOf (toLowerStr p) (toLowerStr C))
    ∧ ((IsDangerous C P).1 = true →
        ∃ P₁ p₀ P₂, P = P₁ ++ p₀ :: P₂
          ∧ (∀ p ∈ P₁, ¬ SubstringOf (toLowerStr p) (toLowerStr C))
          ∧ SubstringOf (toLowerStr p₀) (toLowerStr C)
          ∧ IsDangerous C P = (true, gostr "Command contains dangerous pattern: " ++ p₀))
    ∧ ((IsDangerous C P).1 = false → IsDangerous C P = (false, [])) := by
  refine ⟨?_, ?_, ?_⟩
  · unfold IsDangerous
    rw [isDangerousAux_fst_true]
    constructor
    · rintro ⟨p, hp, hc⟩
      exact ⟨p, hp, (goContains_iff _ _).mp hc⟩
    · rintro ⟨p, hp, hs⟩
      exact ⟨p, hp, (goContains_iff _ _).mpr hs⟩
  · intro h
    obtain ⟨l₁, p₀, l₂, hps, hnone, hp₀, heq⟩ := isDangerousAux_first (toLowerStr C) P h
    refine ⟨l₁, p₀, l₂, hps, ?_, (goContains_iff _ _).mp hp₀, heq⟩
    intro p hp hs
    have hf := hnone p hp
    have ht := (goContains_iff (toLowerStr C) (toLowerStr p)).mpr hs
    rw [ht] at hf
    cases hf
  · intro h
    exact isDangerousAux_fst_false (toLowerStr C) P h

/-- Witness for C1: the Safe branch of the classifier at a concrete input. -/
theorem IsDangerous_spec_witness :
    IsDangerous (gostr "ls -la") [gostr "rm -rf /"] = (false, []) :=
  (IsDangerous_spec (gostr "ls -la") [gostr "rm -rf /"]).2.2 (by decide)

/-- C3: the strict confirmation returns true exactly when the input line,
after trimming surrounding white space and lower-casing, equals the literal
`yes`; any other line yields false, and end-of-input yields the error
outcome; each invocation consumes one line only, so there is no re-prompt. -/
theorem ShowDangerWarning_spec (L : GoStr) :
    (ShowDangerWarning (some L) = ConfirmResult.ok true ↔
       toLowerStr (trimSpace L) = gostr "yes")
    ∧ (toLowerStr (trimSpace L) ≠ gostr "yes" →
       ShowDangerWarning (some L) = ConfirmResult.ok false)
    ∧ ShowDangerWarning none = ConfirmResult.err := by
  refine ⟨showDangerWarning_ok_iff L, ?_, rfl⟩
  intro h
  obtain ⟨b, hb⟩ := showDangerWarning_some_ok L
  cases b
  · exact hb
  · exact absurd ((showDangerWarning_ok_iff L).mp hb) h

/-- Witness for C3: the single letter `y` is rejected by the strict prompt. -/
theorem ShowDangerWarning_spec_witness :
    ShowDangerWarning (some (gostr "y")) = ConfirmResult.ok false :=
  (ShowDangerWarning_spec (gostr "y")).2.1 (by decide)

/-- C4: the standard confirmation returns true exactly when the input line,
after trimming surrounding white space and lower-casing, is the empty
string, `y`, or `yes`; every other value yields false, and a read failure
yields the error outcome (which the caller treats as false). -/
theorem ConfirmExecution_spec (L : GoStr) :
    (ConfirmExecution (some L) = ConfirmResult.ok true ↔
       (toLowerStr (trimSpace L) = [] ∨ toLowerStr (trimSpace L) = gostr "y"
         ∨ toLowerStr (trimSpace L) = gostr "yes"))
    ∧ (¬(toLowerStr (trimSpace L) = [] ∨ toLowerStr (trimSpace L) = gostr "y"
         ∨ toLowerStr (trimSpace L) = gostr "yes") →
       ConfirmExecution (some L) = ConfirmResult.ok false)
    ∧ ConfirmExecution none = ConfirmResult.err := by
  refine ⟨confirmExecution_ok_iff L, ?_, rfl⟩
  intro h
  obtain ⟨b, hb⟩ := confirmExecution_some_ok L
  cases b
  · exact hb
  · exact absurd ((confirmExecution_ok_iff L).mp hb) h

/-- Witness for C4: an unrecognized answer is rejected by the standard prompt. -/
theorem ConfirmExecution_spec_witness :
    ConfirmExecution (some (gostr "maybe")) = ConfirmResult.ok false :=
  (ConfirmExecution_spec (gostr "maybe")).2.1 (by decide)

/-- C5: invoked with a command its own pattern list classifies as
dangerous, `SafeExecutor.Execute` starts no subprocess and returns an empty
output string together with the distinct refusal error, whose text contains
the dangerous-command reason. -/
theorem Execute_refusal_spec (e : SafeExecutor) (run : GoStr → GoStr × Option GoStr)
    (command : GoStr) (h : (IsDangerous command e.dangerousPatterns).1 = true) :
    e.Execute run command =
      { output := [],
        err := some (gostr "refused to execute dangerous command: "
          ++ (IsDangerous command e.dangerousPatterns).2),
        subprocessStarted := false }
    ∧ ∀ m, (e.Execute run command).err = some m →
        SubstringOf ((IsDangerous command e.dangerousPatterns).2) m := by
  have he : e.Execute run command =
      { output := [],
        err := some (gostr "refused to execute dangerous command: "
          ++ (IsDangerous command e.dangerousPatterns).2),
        subprocessStarted := false } := by
    simp only [SafeExecutor.Execute]
    rw [if_pos h]
  refine ⟨he, ?_⟩
  intro m hm
  rw [he] at hm
  injection hm with hm
  rw [← hm]
  exact substringOf_append_left _ _

/-- Witness for C5: the executor refuses a concrete dangerous command. -/
theorem Execute_refusal_spec_witness :
    SafeExecutor.Execute ⟨[gostr "rm -rf"], gostr "/bin/zsh"⟩ (fun c => (c, none))
        (gostr "rm -rf /tmp/test") =
      { output := [],
        err := some (gostr "refused to execute dangerous command: "
          ++ (IsDangerous (gostr "rm -rf /tmp/test") [gostr "rm -rf"]).2),
        subprocessStarted := false } :=
  (Execute_refusal_spec ⟨[gostr "rm -rf"], gostr "/bin/zsh"⟩ (fun c => (c, none))
    (gostr "rm -rf /tmp/test") (by decide)).1

/-- C8: with an empty pattern list every command is Safe, and the empty
command is Dangerous exactly when the pattern list contains the empty
pattern. -/
theorem IsDangerous_empty_spec :
    (∀ C : GoStr, IsDangerous C [] = (false, []))
    ∧ (∀ P : List GoStr, ((IsDangerous [] P).1 = true ↔ [] ∈ P)) := by
  constructor
  · intro C
    rfl
  · intro P
    unfold IsDangerous
    rw [isDangerousAux_fst_true]
    constructor
    · rintro ⟨p, hp, hc⟩
      obtain ⟨pre, post, he⟩ := (goContains_iff _ _).mp hc
      have he' : pre ++ List.map toLowerCp p ++ post = ([] : GoStr) := by
        simpa [toLowerStr] using he
      have hl := congrArg List.length he'
      simp only [List.length_append, List.length_map, List.length_nil] at hl
      have hz : p.length = 0 := by omega
      have hpe : p = [] := List.length_eq_zero.mp hz
      subst hpe
      exact hp
    · intro hp
      exact ⟨[], hp, rfl⟩

/-- C9: toggling the case of the command changes neither the verdict nor
the reported reason of the classifier. -/
theorem IsDangerous_toggle_spec (C : GoStr) (P : List GoStr) :
    IsDangerous (toggleCase C) P = IsDangerous C P := by
  unfold IsDangerous
  rw [toLowerStr_toggleCase]

/-- Unfolding of the executor on a dangerous command. -/
lemma execute_danger_eq (e : SafeExecutor) (run : GoStr → GoStr × Option GoStr)
    (command : GoStr) (h : (IsDangerous command e.dangerousPatterns).1 = true) :
    e.Execute run command =
      { output := [],
        err := some (gostr "refused to execute dangerous command: "
          ++ (IsDangerous command e.dangerousPatterns).2),
        subprocessStarted := false } := by
  simp only [SafeExecutor.Execute]
  rw [if_pos h]

/-- The execution phase of `main` always marks the executor as invoked. -/
lemma runExecPhase_invoked (e : SafeExecutor) (run : GoStr → GoStr × Option GoStr)
    (command : GoStr) :
    (runExecPhase e run command).executeInvoked = true := by
  simp only [runExecPhase]
  cases (e.Execute run command).err <;> rfl

/-- The execution phase on a dangerous command: refusal, no subprocess,
failure outcome carrying the refusal message. -/
lemma runExecPhase_danger (e : SafeExecutor) (run : GoStr → GoStr × Option GoStr)
    (command : GoStr) (h : (IsDangerous command e.dangerousPatterns).1 = true) :
    runExecPhase e run command =
      { result := .failed [] (gostr "refused to execute dangerous command: "
          ++ (IsDangerous command e.dangerousPatterns).2),
        executeInvoked := true, subprocessStarted := false } := by
  simp [runExecPhase, execute_danger_eq e run command h]

/-- Unfolding of `main` when the classifier says Safe. -/
lemma mainFlow_safe_eq (patterns : List GoStr) (shell : GoStr)
    (run : GoStr → GoStr × Option GoStr) (command : GoStr) (stdin : List GoStr)
    (hd : (IsDangerous command patterns).1 = false) :
    mainFlow patterns shell run command stdin =
      standardPhase ⟨patterns, shell⟩ run command stdin := by
  simp only [mainFlow]
  rw [if_neg (by simp [hd])]

/-- Unfolding of `main` on a dangerous command when standard input is empty. -/
lemma mainFlow_danger_nil (patterns : List GoStr) (shell : GoStr)
    (run : GoStr → GoStr × Option GoStr) (command : GoStr)
    (hd : (IsDangerous command patterns).1 = true) :
    mainFlow patterns shell run command [] = cancelTrace := by
  simp only [mainFlow]
  rw [if_pos hd]
  rfl

/-- Unfolding of `main` on a dangerous command with at least one input line. -/
lemma mainFlow_danger_cons (patterns : List GoStr) (shell : GoStr)
    (run : GoStr → GoStr × Option GoStr) (command : GoStr) (l : GoStr) (rest : List GoStr)
    (hd : (IsDangerous command patterns).1 = true) :
    mainFlow patterns shell run command (l :: rest) =
      match ShowDangerWarning (some l) with
      | .ok true => standardPhase ⟨patterns, shell⟩ run command rest
      | _ => cancelTrace := by
  simp only [mainFlow]
  rw [if_pos hd]
  rfl

/-- The standard phase reaches the executor exactly when the next line of
standard input exists and is an affirmative standard answer. -/
lemma standardPhase_invoked_iff (e : SafeExecutor) (run : GoStr → GoStr × Option GoStr)
    (command : GoStr) (stdin : List GoStr) :
    (standardPhase e run command stdin).executeInvoked = true ↔
      ∃ l rest, stdin = l :: rest ∧ ConfirmExecution (some l) = ConfirmResult.ok true := by
  cases stdin with
  | nil =>
    constructor
    · intro h
      exact Bool.noConfusion h
    · rintro ⟨l, rest, heq, _⟩
      exact List.noConfusion heq
  | cons l rest =>
    simp only [standardPhase, List.head?_cons]
    cases hw : ConfirmExecution (some l) with
    | ok b =>
      cases b with
      | false =>
        constructor
        · intro h
          exact Bool.noConfusion h
        · rintro ⟨l2, rest2, heq, hok⟩
          injection heq with h1 h2
          subst h1
          rw [hw] at hok
          exact absurd hok (by decide)
      | true =>
        constructor
        · intro _
          exact ⟨l, rest, rfl, hw⟩
        · intro _
          exact runExecPhase_invoked e run command
    | err =>
      obtain ⟨b, hb⟩ := confirmExecution_some_ok l
      rw [hb] at hw
      exact ConfirmResult.noConfusion hw

/-- Every run of `main` either cancels before the executor or runs the
execution phase. -/
lemma mainFlow_cases (patterns : List GoStr) (shell : GoStr)
    (run : GoStr → GoStr × Option GoStr) (command : GoStr) (stdin : List GoStr) :
    mainFlow patterns shell run command stdin = cancelTrace
    ∨ mainFlow patterns shell run command stdin =
        runExecPhase ⟨patterns, shell⟩ run command := by
  by_cases hd : (IsDangerous command patterns).1 = true
  · cases stdin with
    | nil => exact Or.inl (mainFlow_danger_nil patterns shell run command hd)
    | cons l rest =>
      rw [mainFlow_danger_cons patterns shell run command l rest hd]
      cases ShowDangerWarning (some l) with
      | ok b =>
        cases b with
        | false => exact Or.inl rfl
        | true =>
          unfold standardPhase
          cases ConfirmExecution rest.head? with
          | ok b2 =>
            cases b2 with
            | false => exact Or.inl rfl
            | true => exact Or.inr rfl
          | err => exact Or.inl rfl
      | err => exact Or.inl rfl
  · rw [mainFlow_safe_eq patterns shell run command stdin (bool_eq_false_of_ne_true hd)]
    unfold standardPhase
    cases ConfirmExecution stdin.head? with
    | ok b =>
      cases b with
      | false => exact Or.inl rfl
      | true => exact Or.inr rfl
    | err => exact Or.inl rfl

/-- On a dangerous command, reaching the executor requires a first input
line accepted by the strict prompt and a second accepted by the standard
prompt. -/
lemma mainFlow_invoked_danger (patterns : List GoStr) (shell : GoStr)
    (run : GoStr → GoStr × Option GoStr) (command : GoStr) (stdin : List GoStr)
    (hd : (IsDangerous command patterns).1 = true)
    (h : (mainFlow patterns shell run command stdin).executeInvoked = true) :
    ∃ l rest, stdin = l :: rest ∧ ShowDangerWarning (some l) = ConfirmResult.ok true
      ∧ ∃ l2 rest2, rest = l2 :: rest2 ∧ ConfirmExecution (some l2) = ConfirmResult.ok true := by
  cases stdin with
  | nil =>
    rw [mainFlow_danger_nil patterns shell run command hd] at h
    exact Bool.noConfusion h
  | cons l rest =>
    rw [mainFlow_danger_cons patterns shell run command l rest hd] at h
    cases hw : ShowDangerWarning (some l) with
    | ok b =>
      cases b with
      | false =>
        rw [hw] at h
        exact Bool.noConfusion h
      | true =>
        rw [hw] at h
        rw [standardPhase_invoked_iff] at h
        obtain ⟨l2, rest2, heq, hok⟩ := h
        exact ⟨l, rest, rfl, hw, l2, rest2, heq, hok⟩
    | err =>
      obtain ⟨b, hb⟩ := showDangerWarning_some_ok l
      rw [hb] at hw
      exact ConfirmResult.noConfusion hw

/-- C2: the command reaches the execution collaborator (the executor is
invoked and a shell subprocess is started) only if the classifier returned
Safe, or it returned Dangerous and the user answered the exact normalized
token `yes` at the strict prompt and then passed the standard prompt; no
other path leads to execution. -/
theorem mainFlow_gate_spec (patterns : List GoStr) (shell : GoStr)
    (run : GoStr → GoStr × Option GoStr) (command : GoStr) (stdin : List GoStr)
    (h : (mainFlow patterns shell run command stdin).executeInvoked = true
       ∧ (mainFlow patterns shell run command stdin).subprocessStarted = true) :
    (IsDangerous command patterns).1 = false
    ∨ ((IsDangerous command patterns).1 = true
       ∧ ∃ l rest, stdin = l :: rest ∧ toLowerStr (trimSpace l) = gostr "yes"
         ∧ ∃ l2 rest2, rest = l2 :: rest2
             ∧ ConfirmExecution (some l2) = ConfirmResult.ok true) := by
  by_cases hd : (IsDangerous command patterns).1 = true
  · right
    refine ⟨hd, ?_⟩
    obtain ⟨l, rest, heq, hw, l2, rest2, heq2, hok⟩ :=
      mainFlow_invoked_danger patterns shell run command stdin hd h.1
    exact ⟨l, rest, heq, (showDangerWarning_ok_iff l).mp hw, l2, rest2, heq2, hok⟩
  · exact Or.inl (bool_eq_false_of_ne_true hd)

/-- Witness for C2: a safe command confirmed at the standard prompt. -/
theorem mainFlow_gate_spec_witness :
    (IsDangerous (gostr "ls -la") [gostr "rm -rf"]).1 = false
    ∨ ((IsDangerous (gostr "ls -la") [gostr "rm -rf"]).1 = true
       ∧ ∃ l rest, [gostr ""] = l :: rest ∧ toLowerStr (trimSpace l) = gostr "yes"
         ∧ ∃ l2 rest2, rest = l2 :: rest2
             ∧ ConfirmExecution (some l2) = ConfirmResult.ok true) :=
  mainFlow_gate_spec [gostr "rm -rf"] (gostr "/bin/zsh") (fun c => (c, none))
    (gostr "ls -la") [gostr ""] (by decide)

/-- C7: whenever a run of `main` does not reach the executor (any decline,
or a read failure on either prompt), it prints the one neutral cancellation
message, whose text contains `execution cancelled`, exits with status 0,
and starts no subprocess. -/
theorem mainFlow_cancel_spec (patterns : List GoStr) (shell : GoStr)
    (run : GoStr → GoStr × Option GoStr) (command : GoStr) (stdin : List GoStr)
    (h : (mainFlow patterns shell run command stdin).executeInvoked = false) :
    (mainFlow patterns shell run command stdin).result = MainResult.cancelled cancelMsg
    ∧ exitCode (mainFlow patterns shell run command stdin).result = 0
    ∧ goContains cancelMsg (gostr "execution cancelled") = true
    ∧ (mainFlow patterns shell run command stdin).subprocessStarted = false := by
  rcases mainFlow_cases patterns shell run command stdin with hc | hc
  · rw [hc]
    exact ⟨rfl, rfl, by decide, rfl⟩
  · rw [hc] at h
    rw [runExecPhase_invoked ⟨patterns, shell⟩ run command] at h
    exact Bool.noConfusion h

/-- Witness for C7: end-of-input at the very first prompt cancels. -/
theorem mainFlow_cancel_spec_witness :
    (mainFlow [gostr "rm -rf"] (gostr "/bin/zsh") (fun c => (c, none))
      (gostr "ls -la") []).result = MainResult.cancelled cancelMsg :=
  (mainFlow_cancel_spec [gostr "rm -rf"] (gostr "/bin/zsh") (fun c => (c, none))
    (gostr "ls -la") [] (by decide)).1

/-- C10: a command the configured pattern list classifies as Dangerous is
never run: no shell subprocess is ever started for it, and if the user
passes both prompts so that the executor is invoked, the executor's
unconditional re-check refuses it and the process exits with status 1
through the error path. -/
theorem mainFlow_dangerNever_spec (patterns : List GoStr) (shell : GoStr)
    (run : GoStr → GoStr × Option GoStr) (command : GoStr) (stdin : List GoStr)
    (h : (IsDangerous command patterns).1 = true) :
    (mainFlow patterns shell run command stdin).subprocessStarted = false
    ∧ ((mainFlow patterns shell run command stdin).executeInvoked = true →
        (mainFlow patterns shell run command stdin).result =
          MainResult.failed [] (gostr "refused to execute dangerous command: "
            ++ (IsDangerous command patterns).2)
        ∧ exitCode (mainFlow patterns shell run command stdin).result = 1) := by
  rcases mainFlow_cases patterns shell run command stdin with hc | hc
  · rw [hc]
    refine ⟨rfl, ?_⟩
    intro hinv
    exact Bool.noConfusion hinv
  · rw [hc]
    rw [runExecPhase_danger ⟨patterns, shell⟩ run command h]
    exact ⟨rfl, fun _ => ⟨rfl, rfl⟩⟩

/-- Witness for C10: a dangerous command confirmed twice is still refused. -/
theorem mainFlow_dangerNever_spec_witness :
    (mainFlow [gostr "rm -rf"] (gostr "/bin/zsh") (fun c => (c, none))
      (gostr "rm -rf /home/user") [gostr "yes", gostr ""]).subprocessStarted = false :=
  (mainFlow_dangerNever_spec [gostr "rm -rf"] (gostr "/bin/zsh") (fun c => (c, none))
    (gostr "rm -rf /home/user") [gostr "yes", gostr ""] (by decide)).1

/-- C6, evaluated on the code: for the dangerous command `rm -rf /home/user`
with pattern `rm -rf`, strict-prompt `yes` followed by standard-prompt `n`
yields the cancellation outcome (both confirmations are indeed required);
but strict-prompt `yes` followed by a bare Enter does NOT run the command:
the executor is invoked, yet it starts no subprocess and the run ends in
the refusal error with exit status 1, contradicting the claim that the
command is then handed over and run. -/
theorem mainFlow_dangerScenarios_eval :
    (mainFlow [gostr "rm -rf"] (gostr "/bin/zsh") (fun c => (c, none))
        (gostr "rm -rf /home/user") [gostr "yes", gostr "n"]).result
      = MainResult.cancelled cancelMsg
    ∧ (mainFlow [gostr "rm -rf"] (gostr "/bin/zsh") (fun c => (c, none))
        (gostr "rm -rf /home/user") [gostr "yes", gostr ""]).executeInvoked = true
    ∧ (mainFlow [gostr "rm -rf"] (gostr "/bin/zsh") (fun c => (c, none))
        (gostr "rm -rf /home/user") [gostr "yes", gostr ""]).subprocessStarted = false
    ∧ (mainFlow [gostr "rm -rf"] (gostr "/bin/zsh") (fun c => (c, none))
        (gostr "rm -rf /home/user") [gostr "yes", gostr ""]).result
      = MainResult.failed []
          (gostr "refused to execute dangerous command: Command contains dangerous pattern: rm -rf")
    ∧ exitCode (mainFlow [gostr "rm -rf"] (gostr "/bin/zsh") (fun c => (c, none))
        (gostr "rm -rf /home/user") [gostr "yes", gostr ""]).result = 1 := by
  decide
